import Mathlib

/-!
Verification of the cash shell (src/cash.cpp, src/cash.h) against its
natural-language specification.  Strings are modelled as `List Char`,
token sequences as `List (List Char)`; OS-level effects (fork results,
wait statuses, tcsetpgrp/kill success) are passed in as explicit
parameters, and printed diagnostics are returned as flags.
-/

namespace cash

/-- The double-quote character, written via its code point. -/
def dquote : Char := Char.ofNat 34

/-- The single-quote character, written via its code point. -/
def squote : Char := Char.ofNat 39

/-- Loop body of `cash::parse` (cash.cpp lines 128-158): scans the input
left to right maintaining the accumulated argument list `args`, the
current argument `arg`, and the two quote flags `quoted` and
`single_quoted`.  Returns the four locals at end of input. -/
def parseLoop (delimiter : Char) :
    List Char → List (List Char) → List Char → Bool → Bool →
    List (List Char) × List Char × Bool × Bool
  | [], args, arg, quoted, single_quoted => (args, arg, quoted, single_quoted)
  | ch :: rest, args, arg, quoted, single_quoted =>
    if ch = dquote ∧ single_quoted = false then
      parseLoop delimiter rest args arg (!quoted) single_quoted
    else if ch = squote ∧ quoted = false then
      parseLoop delimiter rest args arg quoted (!single_quoted)
    else if ch = delimiter ∧ quoted = false ∧ single_quoted = false then
      if arg = [] then parseLoop delimiter rest args [] quoted single_quoted
      else parseLoop delimiter rest (args ++ [arg]) [] quoted single_quoted
    else
      parseLoop delimiter rest args (arg ++ [ch]) quoted single_quoted

/-- `cash::parse` (cash.cpp lines 121-174), with the printed
"Unmatched quotation marks" diagnostic returned as a Bool alongside the
token list: after the scan the last argument is pushed if non-empty, and
if either quote mode is still active the list is cleared. -/
def parseRun (input : List Char) (delimiter : Char) :
    List (List Char) × Bool :=
  let r := parseLoop delimiter input [] [] false false
  let args := r.1
  let arg := r.2.1
  let quoted := r.2.2.1
  let single_quoted := r.2.2.2
  let args := if arg = [] then args else args ++ [arg]
  if quoted ∨ single_quoted then ([], true) else (args, false)

/-- The token sequence returned by `cash::parse`. -/
def parse (input : List Char) (delimiter : Char) : List (List Char) :=
  (parseRun input delimiter).1

/-- The evolution of the two quote flags of `cash::parse` alone: a quote
character toggles its own mode only when the other mode is not active.
Used to state when "a quote mode is still active at end of input". -/
def scanQuotes : List Char → Bool → Bool → Bool × Bool
  | [], quoted, single_quoted => (quoted, single_quoted)
  | ch :: rest, quoted, single_quoted =>
    if ch = dquote ∧ single_quoted = false then
      scanQuotes rest (!quoted) single_quoted
    else if ch = squote ∧ quoted = false then
      scanQuotes rest quoted (!single_quoted)
    else
      scanQuotes rest quoted single_quoted

/-- No quote character occurs in the input (the precondition of the
tokenize-then-rejoin round-trip property). -/
def noQuotes (cs : List Char) : Prop := ∀ c ∈ cs, c ≠ dquote ∧ c ≠ squote

instance (cs : List Char) : Decidable (noQuotes cs) :=
  List.decidableBAll _ cs

/-- Splitting on the space delimiter, never emitting empty tokens: the
specialisation of the `cash::parse` scan to quote-free input, carrying
the current argument. -/
def split1 : List Char → List Char → List (List Char)
  | [], arg => if arg = [] then [] else [arg]
  | c :: cs, arg =>
    if c = ' ' then
      if arg = [] then split1 cs [] else arg :: split1 cs []
    else split1 cs (arg ++ [c])

/-- Rejoin a token sequence with single spaces. -/
def joinSpace : List (List Char) → List Char
  | [] => []
  | [a] => a
  | a :: b :: r => a ++ ' ' :: joinSpace (b :: r)

/-- Modelled from the spec: "the input with runs of spaces collapsed to
one and leading/trailing spaces removed".  The scan copies characters
left to right; `pending` records that one or more spaces were just seen
(so a run contributes at most one space, emitted only when another
non-space character follows, which removes trailing spaces), and
`started` records that a non-space character has been emitted (so no
space is emitted before the first one, which removes leading spaces). -/
def collapseGo : List Char → Bool → Bool → List Char
  | [], _, _ => []
  | c :: cs, started, pending =>
    if c = ' ' then collapseGo cs started true
    else (if started ∧ pending then [' '] else []) ++ c :: collapseGo cs true false

/-- The whitespace-collapsed input: runs of spaces collapsed to one,
leading and trailing spaces removed. -/
def collapse (input : List Char) : List Char := collapseGo input false false

/-- Last-argument push of `cash::parse` (cash.cpp lines 160-164). -/
def finishArgs (r : List (List Char) × List Char × Bool × Bool) :
    List (List Char) :=
  if r.2.1 = [] then r.1 else r.1 ++ [r.2.1]

/-- Job status (cash.h lines 66-70). -/
inductive Status where
  | RUNNING
  | STOPPED
  | DONE
deriving DecidableEq, Repr

/-- A background-job record (cash.h lines 62-71). -/
structure Job where
  pid : Int
  pgid : Int
  cmd : List Char
  status : Status
deriving DecidableEq, Repr

/-- Default job used with `List.getD` when reading the table. -/
def dj : Job := { pid := 0, pgid := 0, cmd := [], status := Status.RUNNING }

/-- The identity of a job apart from its mutable status. -/
def jobCore (j : Job) : Int × Int × List Char := (j.pid, j.pgid, j.cmd)

/-- In-place status update of table entry `i` (the only mutation of an
existing entry anywhere in cash.cpp: the polling loop in `cash::jobs`,
and the status updates in `cash::fg` and `cash::bg`). -/
def setJobStatus (background_jobs : List Job) (i : Nat) (s : Status) :
    List Job :=
  match background_jobs[i]? with
  | none => background_jobs
  | some job => background_jobs.set i { job with status := s }

/-- The two mutations the source ever applies to `background_jobs`:
appending a new entry (`push_back` in `cash::execute`, lines 533 and
564) and updating the status of an existing entry.  No operation erases
an entry. -/
inductive TableOp where
  | push (j : Job)
  | setStatus (i : Nat) (s : Status)

/-- Apply one table operation. -/
def applyOp (tbl : List Job) : TableOp → List Job
  | TableOp.push j => tbl ++ [j]
  | TableOp.setStatus i s => setJobStatus tbl i s

/-- Apply a sequence of table operations. -/
def applyOps (tbl : List Job) (ops : List TableOp) : List Job :=
  ops.foldl applyOp tbl

/-- The entries printed by the listing loop of `cash::jobs` (cash.cpp
lines 350-370), starting at 0-based position `i`: Done entries are
skipped, every other entry is printed with index `i + 1`. -/
def jobsListingFrom : Nat → List Job → List (Nat × Job)
  | _, [] => []
  | i, j :: rest =>
    if j.status = Status.DONE then jobsListingFrom (i + 1) rest
    else (i + 1, j) :: jobsListingFrom (i + 1) rest

/-- The `[index] <status> <pid> <cmd>` entries printed by `cash::jobs`. -/
def jobsListing (background_jobs : List Job) : List (Nat × Job) :=
  jobsListingFrom 0 background_jobs

/-- Alias expansion step of `cash::execute` (cash.cpp lines 388-402):
if the first token is an alias name, its replacement text is tokenized
and spliced in place of the first token, the remaining original tokens
following; no recursive re-expansion.  The alias table (a `std::map`)
is modelled as an association list.  (The source indexes
`alias_args[0]`, so an alias whose replacement parses to no tokens is
outside its contract; that case is modelled as leaving the tokens
unchanged.) -/
def aliasExpand (aliases : List (List Char × List Char))
    (args : List (List Char)) : List (List Char) :=
  match args with
  | [] => []
  | a0 :: rest =>
    match aliases.lookup a0 with
    | none => a0 :: rest
    | some expanded_cmd =>
      match parse expanded_cmd ' ' with
      | [] => a0 :: rest
      | h :: t => h :: t ++ rest

/-- Environment-variable expansion of `cash::execute` (cash.cpp lines
404-420): every token that begins with `$` and has at least one more
character is replaced by the environment value, or the empty string if
unset.  The process environment (`getenv`) is modelled as an
association list. -/
def envExpand (env : List (List Char × List Char))
    (args : List (List Char)) : List (List Char) :=
  args.map fun arg =>
    if arg ≠ [] ∧ arg.headD ' ' = '$' ∧ 1 < arg.length then
      match env.lookup (arg.drop 1) with
      | some value => value
      | none => []
    else arg

/-- Background-marker detection of `cash::execute` (cash.cpp lines
432-437): a trailing `&` token is stripped and remembered. -/
def stripBackground (expanded_args : List (List Char)) :
    Bool × List (List Char) :=
  if expanded_args ≠ [] ∧ expanded_args.getLast? = some ("&".data) then
    (true, expanded_args.dropLast)
  else (false, expanded_args)

/-- Pipe splitting of `cash::execute` (cash.cpp lines 447-468): every
`|` token sets the flag; tokens before the first `|` form the first
command, tokens after any `|` form the second. -/
def splitAtPipe (expanded_args : List (List Char)) :
    Bool × List (List Char) × List (List Char) :=
  expanded_args.foldl
    (fun acc arg =>
      if arg = "|".data then (true, acc.2.1, acc.2.2)
      else if acc.1 = false then (acc.1, acc.2.1 ++ [arg], acc.2.2)
      else (acc.1, acc.2.1, acc.2.2 ++ [arg]))
    (false, [], [])

/-- The status reported by `waitpid` for a child, as inspected through
the `WIFEXITED`/`WIFSTOPPED`/`WIFSIGNALED` macros. -/
inductive WaitStatus where
  | exited (code : Nat)
  | signaled (sig : Nat)
  | stopped (sig : Nat)
deriving DecidableEq, Repr

/-- `WIFEXITED`. -/
def wifexited : WaitStatus → Bool
  | WaitStatus.exited _ => true
  | _ => false

/-- `WEXITSTATUS` (only meaningful when `wifexited`). -/
def wexitstatus : WaitStatus → Nat
  | WaitStatus.exited code => code
  | _ => 0

/-- `WIFSTOPPED`. -/
def wifstopped : WaitStatus → Bool
  | WaitStatus.stopped _ => true
  | _ => false

/-- `WIFSIGNALED`. -/
def wifsignaled : WaitStatus → Bool
  | WaitStatus.signaled _ => true
  | _ => false

/-- Return value of the pipeline branch of `cash::execute` (cash.cpp
lines 499-510) as a function of the two reaped wait statuses: `-1`
unless both stages exited normally, otherwise the second stage's exit
status. -/
def pipelineReturn (status1 status2 : WaitStatus) : Int :=
  if ¬(wifexited status1 = true) ∨ ¬(wifexited status2 = true) then -1
  else (wexitstatus status2 : Int)

/-- Command text recorded for a job (cash.cpp lines 521-525 and
551-556): each token followed by one space. -/
def buildCmd (expanded_args : List (List Char)) : List Char :=
  expanded_args.foldl (fun cmd_str arg => cmd_str ++ arg ++ [' ']) []

/-- Outcome of launching a background job. -/
structure BgLaunch where
  ret : Int
  jobs : List Job
  announced : Nat
deriving DecidableEq, Repr

/-- Background branch of `cash::execute` (cash.cpp lines 517-539), for a
non-builtin command whose trailing `&` has already been stripped: the
spawned child (with `pgid = pid`) is appended as a Running job, the new
table length is announced as the job's index, and 0 is returned without
waiting. -/
def executeBackground (background_jobs : List Job) (pid : Int)
    (expanded_args : List (List Char)) : BgLaunch :=
  let cmd_str := buildCmd expanded_args
  let job : Job :=
    { pid := pid, pgid := pid, cmd := cmd_str, status := Status.RUNNING }
  let jobs' := background_jobs ++ [job]
  { ret := 0, jobs := jobs', announced := jobs'.length }

/-- Result of `cash::fg`: return value, job table, terminal's
controlling process group, and whether an error diagnostic was
printed. -/
structure FgOut where
  ret : Int
  jobs : List Job
  term : Int
  diag : Bool
deriving DecidableEq, Repr

/-- `cash::fg` (cash.cpp lines 1010-1064), after the textual argument
has been parsed to the integer `job_id` (lines 990-1009).  `term` is
the terminal's controlling process group on entry (`tcgetpgrp`, the
shell's own group); `setpgrpJobOk`, `killOk` and `setpgrpShellOk` say
whether the `tcsetpgrp`-to-job, `kill(-pgid, SIGCONT)` and
`tcsetpgrp`-back-to-shell calls succeed, and `waitResult` is `none`
when `waitpid` fails.  The `term` field of the result tracks who owns
the terminal when `fg` returns. -/
def fgRun (background_jobs : List Job) (job_id : Int) (term : Int)
    (setpgrpJobOk killOk : Bool) (waitResult : Option WaitStatus)
    (setpgrpShellOk : Bool) : FgOut :=
  if job_id ≤ 0 ∨ (background_jobs.length : Int) < job_id then
    { ret := 1, jobs := background_jobs, term := term, diag := true }
  else
    match background_jobs[(job_id - 1).toNat]? with
    | none =>
      { ret := 1, jobs := background_jobs, term := term, diag := true }
    | some job =>
      if job.status = Status.DONE then
        { ret := 1, jobs := background_jobs, term := term, diag := true }
      else
        let shell_pgid := term
        if setpgrpJobOk = false then
          { ret := 1, jobs := background_jobs, term := term, diag := true }
        else if job.status = Status.STOPPED ∧ killOk = false then
          { ret := 1, jobs := background_jobs, term := job.pgid, diag := true }
        else
          match waitResult with
          | none =>
            { ret := 1, jobs := background_jobs, term := job.pgid,
              diag := true }
          | some status =>
            let jobs' :=
              if wifstopped status = true then
                setJobStatus background_jobs (job_id - 1).toNat Status.STOPPED
              else if wifexited status = true ∨ wifsignaled status = true then
                setJobStatus background_jobs (job_id - 1).toNat Status.DONE
              else background_jobs
            if setpgrpShellOk = false then
              { ret := 1, jobs := jobs', term := job.pgid, diag := true }
            else
              { ret := 0, jobs := jobs', term := shell_pgid, diag := false }

/-- Result of `cash::bg`: return value, job table, and whether an error
diagnostic was printed. -/
structure BgOut where
  ret : Int
  jobs : List Job
  diag : Bool
deriving DecidableEq, Repr

/-- The common tail of `cash::bg` (cash.cpp lines 1103-1130) once
`job_id` is determined: validate the index, require a Stopped job, send
the continue signal (`killOk` says whether it succeeds), mark the job
Running and announce it. -/
def bgResume (background_jobs : List Job) (job_id : Int) (killOk : Bool) :
    BgOut :=
  if job_id ≤ 0 ∨ (background_jobs.length : Int) < job_id then
    { ret := 1, jobs := background_jobs, diag := true }
  else
    match background_jobs[(job_id - 1).toNat]? with
    | none => { ret := 1, jobs := background_jobs, diag := true }
    | some job =>
      if job.status = Status.DONE then
        { ret := 1, jobs := background_jobs, diag := true }
      else if ¬(job.status = Status.STOPPED) then
        { ret := 1, jobs := background_jobs, diag := true }
      else if killOk = false then
        { ret := 1, jobs := background_jobs, diag := true }
      else
        { ret := 0,
          jobs := setJobStatus background_jobs (job_id - 1).toNat
            Status.RUNNING,
          diag := false }

/-- The default-job search of `cash::bg` (cash.cpp lines 1088-1095):
`job_id = 0`, then `for (i = size-1; i >= 0; i--) if (jobs[i].status ==
STOPPED) { job_id = i+1; break; }` — i.e. the highest-numbered Stopped
job, or 0 if none.  Modelled by scanning the suffix (higher indices)
first. -/
def lastStoppedIdAux : List Job → Nat → Int
  | [], _ => 0
  | j :: rest, i =>
    if lastStoppedIdAux rest (i + 1) ≠ 0 then lastStoppedIdAux rest (i + 1)
    else if j.status = Status.STOPPED then (i : Int) + 1
    else 0

/-- The 1-based index of the highest-numbered Stopped job, or 0. -/
def lastStoppedId (background_jobs : List Job) : Int :=
  lastStoppedIdAux background_jobs 0

/-- `cash::bg` (cash.cpp lines 1067-1131): with an argument, the parsed
integer is used as the job id; without one, the highest-numbered
Stopped job is selected, and if there is none a "no current job"
diagnostic is printed and 1 returned. -/
def bgRun (background_jobs : List Job) (arg : Option Int) (killOk : Bool) :
    BgOut :=
  match arg with
  | some job_id => bgResume background_jobs job_id killOk
  | none =>
    if lastStoppedId background_jobs = 0 then
      { ret := 1, jobs := background_jobs, diag := true }
    else bgResume background_jobs (lastStoppedId background_jobs) killOk

/-- Key codes of the line editor (cash.cpp lines 31-59): the values of
`enum Key` for the keys `process_keypress` dispatches on. -/
def KEY_ENTER : Int := 13

/-- `CTRL_C` key code. -/
def KEY_CTRL_C : Int := 3

/-- `CTRL_D` key code. -/
def KEY_CTRL_D : Int := 4

/-- `CTRL_H` key code. -/
def KEY_CTRL_H : Int := 8

/-- `TAB` key code. -/
def KEY_TAB : Int := 9

/-- `CTRL_L` key code. -/
def KEY_CTRL_L : Int := 12

/-- `BACKSPACE` key code. -/
def KEY_BACKSPACE : Int := 127

/-- `ARROW_UP` key code. -/
def KEY_ARROW_UP : Int := 1000

/-- `ARROW_DOWN` key code. -/
def KEY_ARROW_DOWN : Int := 1001

/-- `ARROW_RIGHT` key code. -/
def KEY_ARROW_RIGHT : Int := 1002

/-- `ARROW_LEFT` key code. -/
def KEY_ARROW_LEFT : Int := 1003

/-- `HOME_KEY` key code. -/
def KEY_HOME : Int := 1004

/-- `END_KEY` key code. -/
def KEY_END : Int := 1005

/-- `DEL_KEY` key code. -/
def KEY_DEL : Int := 1006

/-- The editor's mutable session state (cash.h lines 214-224):
`current_line`, `cursor_position` (an `int` in the source) and
`history_index` (an `int`). -/
structure Editor where
  current_line : List Char
  cursor_position : Int
  history_index : Int
deriving DecidableEq, Repr

/-- Result of one `process_keypress` call: continue reading with the new
state, submit the line (Enter returns false), or terminate the program
(Ctrl+D on an empty line calls `std::exit`). -/
inductive KeyResult where
  | cont (e : Editor)
  | submit (e : Editor)
  | exitProgram
deriving DecidableEq, Repr

/-- `std::string::insert(pos, s)`. -/
def insertAt (l : List Char) (pos : Nat) (s : List Char) : List Char :=
  l.take pos ++ s ++ l.drop pos

/-- The backward scan of the Tab handler (cash.cpp lines 745-748):
`while (word_start > 0 && current_line[word_start-1] != ' ')
word_start--`, started at the cursor position. -/
def word_start (line : List Char) : Nat → Nat
  | 0 => 0
  | p + 1 => if line.getD p ' ' = ' ' then p + 1 else word_start line p

/-- The names of the builtin registry `BuiltinCommands` (cash.h lines
192-204), in order. -/
def BuiltinNames : List (List Char) :=
  ["help".data, "cd".data, "exit".data, "history".data, "echo".data,
   "clear".data, "alias".data, "jobs".data, "export".data, "fg".data,
   "bg".data]

/-- The Tab-completion handler (cash.cpp lines 738-787): compute the
word before the cursor; if non-empty, gather builtin names and alias
names having it as a prefix; with exactly one candidate splice the
remaining suffix in at the cursor and advance the cursor by its length;
otherwise (zero or several candidates) the buffer and cursor are
unchanged (several candidates are only printed). -/
def tabComplete (aliasNames : List (List Char)) (e : Editor) : Editor :=
  if e.current_line = [] then e
  else
    let ws := word_start e.current_line e.cursor_position.toNat
    let to_complete :=
      (e.current_line.drop ws).take (e.cursor_position.toNat - ws)
    if to_complete = [] then e
    else
      let candidates :=
        BuiltinNames.filter (fun n => to_complete.isPrefixOf n) ++
        aliasNames.filter (fun n => to_complete.isPrefixOf n)
      match candidates with
      | [c] =>
        let completion := c.drop to_complete.length
        { e with
          current_line :=
            insertAt e.current_line e.cursor_position.toNat completion,
          cursor_position :=
            e.cursor_position + (completion.length : Int) }
      | _ => e

/-- `cash::process_keypress` (cash.cpp lines 670-811).  Output-only
effects (echo, redraw, `system("clear")`) are dropped; `std::exit` on
Ctrl+D with an empty buffer becomes `KeyResult.exitProgram`.  In the
source `history_index` is an `int` compared against `size_t` sizes
(which promotes it to unsigned); the model uses signed comparisons,
which agree on the maintained range `0 ≤ history_index ≤
history.length`. -/
def process_keypress (history_commands : List (List Char))
    (aliasNames : List (List Char)) (key : Int) (e : Editor) : KeyResult :=
  if key = KEY_ENTER then KeyResult.submit e
  else if key = KEY_CTRL_C then
    KeyResult.cont { e with current_line := [], cursor_position := 0 }
  else if key = KEY_CTRL_D then
    if e.current_line = [] then KeyResult.exitProgram else KeyResult.cont e
  else if key = KEY_BACKSPACE ∨ key = KEY_CTRL_H then
    KeyResult.cont
      (if 0 < e.cursor_position then
        { e with
          current_line :=
            e.current_line.eraseIdx (e.cursor_position - 1).toNat,
          cursor_position := e.cursor_position - 1 }
      else e)
  else if key = KEY_DEL then
    KeyResult.cont
      (if e.cursor_position < (e.current_line.length : Int) then
        { e with
          current_line := e.current_line.eraseIdx e.cursor_position.toNat }
      else e)
  else if key = KEY_ARROW_LEFT then
    KeyResult.cont
      (if 0 < e.cursor_position then
        { e with cursor_position := e.cursor_position - 1 }
      else e)
  else if key = KEY_ARROW_RIGHT then
    KeyResult.cont
      (if e.cursor_position < (e.current_line.length : Int) then
        { e with cursor_position := e.cursor_position + 1 }
      else e)
  else if key = KEY_ARROW_UP then
    KeyResult.cont
      (if history_commands ≠ [] ∧ 0 < e.history_index then
        { current_line :=
            history_commands.getD (e.history_index - 1).toNat [],
          cursor_position :=
            ((history_commands.getD (e.history_index - 1).toNat []).length :
              Int),
          history_index := e.history_index - 1 }
      else e)
  else if key = KEY_ARROW_DOWN then
    KeyResult.cont
      (if history_commands ≠ [] ∧
          e.history_index < (history_commands.length : Int) - 1 then
        { current_line :=
            history_commands.getD (e.history_index + 1).toNat [],
          cursor_position :=
            ((history_commands.getD (e.history_index + 1).toNat []).length :
              Int),
          history_index := e.history_index + 1 }
      else if e.history_index = (history_commands.length : Int) - 1 then
        { current_line := [], cursor_position := 0,
          history_index := e.history_index + 1 }
      else e)
  else if key = KEY_TAB then
    KeyResult.cont (tabComplete aliasNames e)
  else if key = KEY_HOME then
    KeyResult.cont { e with cursor_position := 0 }
  else if key = KEY_END then
    KeyResult.cont
      { e with cursor_position := (e.current_line.length : Int) }
  else if key = KEY_CTRL_L then
    KeyResult.cont e
  else
    KeyResult.cont
      (if 32 ≤ key ∧ key < 127 then
        { e with
          current_line :=
            insertAt e.current_line e.cursor_position.toNat
              [Char.ofNat key.toNat],
          cursor_position := e.cursor_position + 1 }
      else e)

/-- The cursor stays within the buffer bounds. -/
def cursorInv (e : Editor) : Prop :=
  0 ≤ e.cursor_position ∧ e.cursor_position ≤ (e.current_line.length : Int)

instance (e : Editor) : Decidable (cursorInv e) := by
  unfold cursorInv; infer_instance

/-- The cursor invariant on the state carried by a `KeyResult`. -/
def keyResultInv : KeyResult → Prop
  | KeyResult.cont e => cursorInv e
  | KeyResult.submit e => cursorInv e
  | KeyResult.exitProgram => True

instance (r : KeyResult) : Decidable (keyResultInv r) := by
  unfold keyResultInv; cases r <;> infer_instance

/-- The quote flags computed by `parseLoop` coincide with `scanQuotes`:
they do not depend on the token accumulators nor on the delimiter
branch taken. -/
theorem parseLoop_flags (delimiter : Char) :
    ∀ (cs : List Char) (args : List (List Char)) (arg : List Char)
      (q sq : Bool),
      (parseLoop delimiter cs args arg q sq).2.2 = scanQuotes cs q sq := by
  intro cs
  induction cs with
  | nil => intro args arg q sq; rfl
  | cons ch rest ih =>
    intro args arg q sq
    by_cases h1 : ch = dquote ∧ sq = false
    · simp only [parseLoop, scanQuotes, if_pos h1]; exact ih ..
    · by_cases h2 : ch = squote ∧ q = false
      · simp only [parseLoop, scanQuotes, if_pos h2, if_neg h1]; exact ih ..
      · by_cases h3 : ch = delimiter ∧ q = false ∧ sq = false
        · simp only [parseLoop, scanQuotes, if_pos h3, if_neg h1, if_neg h2]
          by_cases h4 : arg = []
          · simp only [if_pos h4]; exact ih ..
          · simp only [if_neg h4]; exact ih ..
        · simp only [parseLoop, scanQuotes, if_neg h1, if_neg h2, if_neg h3]
          exact ih ..

/-- On quote-free input both quote flags stay false. -/
theorem scanQuotes_noQuotes :
    ∀ (cs : List Char), noQuotes cs →
      scanQuotes cs false false = (false, false) := by
  intro cs
  induction cs with
  | nil => intro _; rfl
  | cons c rest ih =>
    intro h
    have hc := h c (List.mem_cons_self c rest)
    have hrest : noQuotes rest := fun x hx => h x (List.mem_cons_of_mem c hx)
    simp only [scanQuotes]
    rw [if_neg (by simp [hc.1]), if_neg (by simp [hc.2])]
    exact ih hrest

/-- On quote-free input the `cash::parse` scan is exactly space
splitting with empty tokens dropped. -/
theorem parseLoop_split1 :
    ∀ (cs : List Char), noQuotes cs →
      ∀ (args : List (List Char)) (arg : List Char),
        finishArgs (parseLoop ' ' cs args arg false false) =
          args ++ split1 cs arg := by
  intro cs
  induction cs with
  | nil =>
    intro _ args arg
    simp only [parseLoop, finishArgs, split1]
    by_cases h : arg = [] <;> simp [h]
  | cons c rest ih =>
    intro h args arg
    have hc := h c (List.mem_cons_self c rest)
    have hrest : noQuotes rest := fun x hx => h x (List.mem_cons_of_mem c hx)
    simp only [parseLoop, split1]
    rw [if_neg (by simp [hc.1]), if_neg (by simp [hc.2])]
    by_cases hsp : c = ' '
    · rw [if_pos (by simp [hsp]), if_pos hsp]
      by_cases ha : arg = []
      · rw [if_pos ha, if_pos ha, ih hrest args []]
      · rw [if_neg ha, if_neg ha, ih hrest (args ++ [arg]) []]
        simp
    · rw [if_neg (by simp [hsp]), if_neg hsp]
      exact ih hrest args (arg ++ [c])

/-- On quote-free input `cash::parse` returns the space-split tokens and
prints no diagnostic. -/
theorem parseRun_noQuotes (cs : List Char) (h : noQuotes cs) :
    parseRun cs ' ' = (split1 cs [], false) := by
  unfold parseRun
  have hflags := parseLoop_flags ' ' cs [] [] false false
  rw [scanQuotes_noQuotes cs h] at hflags
  have h1 : (parseLoop ' ' cs [] [] false false).2.2.1 = false := by
    rw [hflags]
  have h2 : (parseLoop ' ' cs [] [] false false).2.2.2 = false := by
    rw [hflags]
  simp only [h1, h2, or_self, Bool.false_eq_true, if_false]
  have := parseLoop_split1 cs h [] []
  unfold finishArgs at this
  rw [this]
  simp

/-- `joinSpace` on a cons. -/
theorem joinSpace_cons (a : List Char) (l : List (List Char)) :
    joinSpace (a :: l) = a ++ (if l = [] then [] else ' ' :: joinSpace l) := by
  cases l <;> simp [joinSpace]

/-- Splitting with a non-empty current argument yields at least one token. -/
theorem split1_ne_nil :
    ∀ (cs : List Char) (arg : List Char), arg ≠ [] → split1 cs arg ≠ [] := by
  intro cs
  induction cs with
  | nil => intro arg ha; simp [split1, ha]
  | cons c rest ih =>
    intro arg ha
    simp only [split1]
    by_cases hsp : c = ' '
    · rw [if_pos hsp, if_neg ha]; simp
    · rw [if_neg hsp]; exact ih (arg ++ [c]) (by simp)

/-- When no character has been emitted yet, the pending-space flag of
the collapsing scan is irrelevant. -/
theorem collapseGo_not_started :
    ∀ (cs : List Char) (p q : Bool),
      collapseGo cs false p = collapseGo cs false q := by
  intro cs
  induction cs with
  | nil => intro p q; rfl
  | cons c rest ih =>
    intro p q
    simp only [collapseGo]
    by_cases hsp : c = ' '
    · rw [if_pos hsp, if_pos hsp]
    · rw [if_neg hsp, if_neg hsp]; simp

/-- The bridge between space splitting rejoined with single spaces and
the character-level whitespace-collapsing scan, in all three scan
states. -/
theorem split1_joinSpace_collapse :
    ∀ (cs : List Char),
      joinSpace (split1 cs []) = collapseGo cs false false
      ∧ (∀ arg, arg ≠ [] →
          joinSpace (split1 cs arg) = arg ++ collapseGo cs true false)
      ∧ collapseGo cs true true =
          (if split1 cs [] = [] then []
           else ' ' :: joinSpace (split1 cs [])) := by
  intro cs
  induction cs with
  | nil =>
    refine ⟨by simp [split1, joinSpace, collapseGo], ?_,
      by simp [split1, collapseGo]⟩
    intro arg ha
    simp [split1, joinSpace, collapseGo, ha]
  | cons c rest ih =>
    obtain ⟨ih1, ih2, ih3⟩ := ih
    by_cases hsp : c = ' '
    · subst hsp
      refine ⟨?_, ?_, ?_⟩
      · simp [split1, collapseGo]
        rw [collapseGo_not_started rest true false]
        exact ih1
      · intro arg ha
        simp [split1, collapseGo, ha]
        rw [joinSpace_cons, ih3]
      · simp [split1, collapseGo]
        exact ih3
    · refine ⟨?_, ?_, ?_⟩
      · simp [split1, collapseGo, hsp]
        rw [ih2 [c] (by simp)]
        simp
      · intro arg ha
        simp [split1, collapseGo, hsp]
        rw [ih2 (arg ++ [c]) (by simp)]
        simp
      · simp [split1, collapseGo, hsp]
        rw [if_neg (split1_ne_nil rest [c] (by simp)),
            ih2 [c] (by simp)]
        simp

/-- C8: for every input string containing no quote characters, parsing
it with the space delimiter and rejoining the resulting tokens with
single spaces yields the input with runs of spaces collapsed to one and
leading/trailing spaces removed. -/
theorem c8_roundtrip (input : List Char) (h : noQuotes input) :
    joinSpace (parse input ' ') = collapse input := by
  unfold parse collapse
  rw [parseRun_noQuotes input h]
  exact (split1_joinSpace_collapse input).1

/-- C8 witness: the quote-free input `  ls   -l /tmp  ` round-trips to
`ls -l /tmp`. -/
theorem c8_roundtrip_witness :
    noQuotes ("  ls   -l /tmp  ".data) ∧
    joinSpace (parse ("  ls   -l /tmp  ".data) ' ') =
      collapse ("  ls   -l /tmp  ".data) ∧
    collapse ("  ls   -l /tmp  ".data) = "ls -l /tmp".data :=
  ⟨by decide, c8_roundtrip ("  ls   -l /tmp  ".data) (by decide), by decide⟩

/-- C3: for every input string in which a double-quote or single-quote
mode is still active at end of input, parse emits a diagnostic and
returns an empty token sequence, regardless of any well-formed tokens
accumulated before the unmatched quote. -/
theorem c3_unmatched_quote_empty (input : List Char) (delimiter : Char)
    (h : (scanQuotes input false false).1 = true ∨
         (scanQuotes input false false).2 = true) :
    parseRun input delimiter = ([], true) := by
  unfold parseRun
  have hf := parseLoop_flags delimiter input [] [] false false
  simp only []
  rw [show (parseLoop delimiter input [] [] false false).2.2.1 =
        (scanQuotes input false false).1 by rw [hf],
      show (parseLoop delimiter input [] [] false false).2.2.2 =
        (scanQuotes input false false).2 by rw [hf]]
  rcases h with h1 | h2
  · rw [h1]; simp
  · rw [h2]; simp

/-- C3 witness: the input `echo "abc` (a well-formed token followed by an
unmatched double quote) leaves double-quote mode active, and parsing it
yields the empty token sequence with the diagnostic. -/
theorem c3_unmatched_quote_empty_witness :
    ((scanQuotes ['e', 'c', 'h', 'o', ' ', dquote, 'a', 'b', 'c']
        false false).1 = true ∨
      (scanQuotes ['e', 'c', 'h', 'o', ' ', dquote, 'a', 'b', 'c']
        false false).2 = true) ∧
    parseRun ['e', 'c', 'h', 'o', ' ', dquote, 'a', 'b', 'c'] ' ' =
      ([], true) :=
  ⟨by decide,
    c3_unmatched_quote_empty ['e', 'c', 'h', 'o', ' ', dquote, 'a', 'b', 'c']
      ' ' (by decide)⟩

/-- C1 counterexample: with tokens split at the pipe, when the first
stage is killed by signal 9 and the second stage exits with status 0,
the dispatcher returns -1, not the second stage's exit status — so the
return value is not independent of the first stage's outcome. -/
theorem c1_pipeline_counterexample :
    pipelineReturn (WaitStatus.signaled 9) (WaitStatus.exited 0) = -1 ∧
    pipelineReturn (WaitStatus.signaled 9) (WaitStatus.exited 0) ≠
      (wexitstatus (WaitStatus.exited 0) : Int) := by
  decide

/-- C1 (amended): for a two-stage pipeline, when both stages terminate
normally the dispatcher returns the second stage's exit status,
independent of the first stage's exit status; if either stage is killed
by a signal it returns -1.  In particular `["true","|","false"]` splits
into the two stages and the return value is the failing second stage's
status. -/
theorem c1_pipeline_amended (code1 code2 : Nat) (st1 st2 : WaitStatus) :
    pipelineReturn (WaitStatus.exited code1) (WaitStatus.exited code2) =
      (code2 : Int)
  ∧ ((wifexited st1 = false ∨ wifexited st2 = false) →
      pipelineReturn st1 st2 = -1)
  ∧ splitAtPipe ["true".data, "|".data, "false".data] =
      (true, ["true".data], ["false".data]) := by
  refine ⟨by simp [pipelineReturn, wifexited, wexitstatus], ?_, by decide⟩
  intro h
  rcases h with h | h <;> simp [pipelineReturn, h]

/-- C1 amended witness: `true | false` (first stage exits 0, second
exits 1) returns 1, and a pipeline whose first stage is killed by
signal 2 returns -1. -/
theorem c1_pipeline_amended_witness :
    pipelineReturn (WaitStatus.exited 0) (WaitStatus.exited 1) =
      ((1 : Nat) : Int) ∧
    pipelineReturn (WaitStatus.signaled 2) (WaitStatus.exited 0) = -1 :=
  ⟨(c1_pipeline_amended 0 1 (WaitStatus.exited 0) (WaitStatus.exited 1)).1,
   (c1_pipeline_amended 0 0 (WaitStatus.signaled 2)
      (WaitStatus.exited 0)).2.1 (by decide)⟩

/-- C2: the code does not restore the terminal on every exit path of
`fg`.  At the failing input — job 1 is Stopped with process group 100,
the shell's group is 10, the terminal transfer to the job succeeds, and
`kill(-pgid, SIGCONT)` then fails — `fg` returns 1 with the terminal's
controlling group still set to the job's group 100; likewise when
`waitpid` fails.  The claim (and the spec) say the shell's group is
always restored before returning. -/
theorem c2_terminal_not_restored :
    fgRun [{ pid := 100, pgid := 100, cmd := "sleep 5 ".data,
             status := Status.STOPPED }] 1 10 true false
        (some (WaitStatus.exited 0)) true =
      { ret := 1,
        jobs := [{ pid := 100, pgid := 100, cmd := "sleep 5 ".data,
                   status := Status.STOPPED }],
        term := 100, diag := true } ∧
    fgRun [{ pid := 100, pgid := 100, cmd := "sleep 5 ".data,
             status := Status.STOPPED }] 1 10 true true none true =
      { ret := 1,
        jobs := [{ pid := 100, pgid := 100, cmd := "sleep 5 ".data,
                   status := Status.STOPPED }],
        term := 100, diag := true } ∧
    (100 : Int) ≠ 10 := by
  decide

/-- C5 counterexample: for input `sleep 5 &` the recorded command text
of the created job is `sleep 5 ` (with a trailing space), not exactly
`sleep 5` as the claim states. -/
theorem c5_background_counterexample :
    (executeBackground [] 77
        (stripBackground ["sleep".data, "5".data, "&".data]).2).jobs.map
        Job.cmd ≠ ["sleep 5".data] ∧
    (executeBackground [] 77
        (stripBackground ["sleep".data, "5".data, "&".data]).2).jobs.map
        Job.cmd = ["sleep 5 ".data] := by
  decide

/-- C5 (amended): executing a non-builtin command with a trailing `&`
strips the marker, returns 0 without waiting, appends exactly one
Running job, and announces the new table length (the new job's 1-based
index); the recorded command text for `sleep 5 &` is `sleep 5 ` — each
token followed by one space, hence a trailing space. -/
theorem c5_background_amended (background_jobs : List Job) (pid : Int) :
    stripBackground ["sleep".data, "5".data, "&".data] =
      (true, ["sleep".data, "5".data])
  ∧ executeBackground background_jobs pid ["sleep".data, "5".data] =
      { ret := 0,
        jobs := background_jobs ++
          [{ pid := pid, pgid := pid, cmd := "sleep 5 ".data,
             status := Status.RUNNING }],
        announced := background_jobs.length + 1 } := by
  have hb : buildCmd ["sleep".data, "5".data] = "sleep 5 ".data := by decide
  exact ⟨by decide, by simp [executeBackground, hb]⟩

/-- C7: for every job-index argument `i` with `i ≤ 0` or `i` greater
than the current table length, both `fg` and `bg` print a diagnostic,
return a non-zero status, and leave the job table (and, for `fg`, the
terminal's controlling group) unchanged, whatever the outcomes of the
manager calls would have been. -/
theorem c7_invalid_index (background_jobs : List Job) (i term : Int)
    (setpgrpJobOk killOk setpgrpShellOk : Bool)
    (waitResult : Option WaitStatus) (bgKillOk : Bool)
    (h : i ≤ 0 ∨ (background_jobs.length : Int) < i) :
    fgRun background_jobs i term setpgrpJobOk killOk waitResult
        setpgrpShellOk =
      { ret := 1, jobs := background_jobs, term := term, diag := true }
  ∧ bgRun background_jobs (some i) bgKillOk =
      { ret := 1, jobs := background_jobs, diag := true } := by
  constructor
  · unfold fgRun
    rw [if_pos h]
  · have hred : bgRun background_jobs (some i) bgKillOk =
        bgResume background_jobs i bgKillOk := rfl
    rw [hred]
    unfold bgResume
    rw [if_pos h]

/-- C7 witness: index 5 on a one-entry table is rejected by both `fg`
and `bg` with no state change. -/
theorem c7_invalid_index_witness :
    ((5 : Int) ≤ 0 ∨ (([dj] : List Job).length : Int) < 5) ∧
    fgRun [dj] 5 7 true true (some (WaitStatus.exited 0)) true =
      { ret := 1, jobs := [dj], term := 7, diag := true } ∧
    bgRun [dj] (some 5) true = { ret := 1, jobs := [dj], diag := true } :=
  ⟨by decide,
   (c7_invalid_index [dj] 5 7 true true true (some (WaitStatus.exited 0))
      true (by decide)).1,
   (c7_invalid_index [dj] 5 7 true true true (some (WaitStatus.exited 0))
      true (by decide)).2⟩

/-- Environment expansion leaves a token list unchanged when no token
triggers the `$`-replacement condition. -/
theorem envExpand_keep (env : List (List Char × List Char)) :
    ∀ (args : List (List Char)),
      (∀ a ∈ args, ¬(a ≠ [] ∧ a.headD ' ' = '$' ∧ 1 < a.length)) →
      envExpand env args = args := by
  intro args
  induction args with
  | nil => intro _; rfl
  | cons a rest ih =>
    intro h
    have ha := h a (List.mem_cons_self a rest)
    have hrest := fun x hx => h x (List.mem_cons_of_mem a hx)
    simp only [envExpand, List.map_cons]
    rw [if_neg ha]
    have := ih hrest
    simp only [envExpand] at this
    rw [this]

/-- The alias step of the dispatcher splices the tokenized replacement
text in place of the first token, the remaining original tokens
following. -/
theorem aliasExpand_splice (aliases : List (List Char × List Char))
    (name val : List Char) (rest : List (List Char))
    (hl : aliases.lookup name = some val) (hp : parse val ' ' ≠ []) :
    aliasExpand aliases (name :: rest) = parse val ' ' ++ rest := by
  cases hpv : parse val ' ' with
  | nil => exact absurd hpv hp
  | cons x t => simp [aliasExpand, hl, hpv]

/-- C4 counterexample: with `ll` aliased to `ls -l`, the effective token
sequence for `ll -a /tmp` is `[ls, -l, -a, /tmp]`, not
`[ls, l, -a, /tmp]` as the claim spells it. -/
theorem c4_alias_counterexample :
    envExpand [] (aliasExpand [("ll".data, "ls -l".data)]
        ["ll".data, "-a".data, "/tmp".data]) ≠
      ["ls".data, "l".data, "-a".data, "/tmp".data] ∧
    envExpand [] (aliasExpand [("ll".data, "ls -l".data)]
        ["ll".data, "-a".data, "/tmp".data]) =
      ["ls".data, "-l".data, "-a".data, "/tmp".data] := by
  decide

/-- C4 (amended): when the alias table maps `ll` to `ls -l`, executing
`[ll, -a, /tmp]` produces the effective token sequence
`[ls, -l, -a, /tmp]`: the alias's tokens replace the first token, the
remaining original tokens follow them, environment expansion leaves
them unchanged, and there is no recursive re-expansion (an alias for
`ls` in the same table is not expanded). -/
theorem c4_alias_amended (aliases env : List (List Char × List Char))
    (hl : aliases.lookup ("ll".data) = some ("ls -l".data)) :
    aliasExpand aliases ["ll".data, "-a".data, "/tmp".data] =
      ["ls".data, "-l".data, "-a".data, "/tmp".data]
  ∧ (∀ rest : List (List Char),
      aliasExpand aliases ("ll".data :: rest) =
        "ls".data :: "-l".data :: rest)
  ∧ envExpand env ["ls".data, "-l".data, "-a".data, "/tmp".data] =
      ["ls".data, "-l".data, "-a".data, "/tmp".data]
  ∧ envExpand [] (aliasExpand
      [("ll".data, "ls -l".data), ("ls".data, "echo nope".data)]
      ["ll".data, "-a".data, "/tmp".data]) =
      ["ls".data, "-l".data, "-a".data, "/tmp".data] := by
  have hp : parse ("ls -l".data) ' ' = ["ls".data, "-l".data] := by decide
  have hsplice : ∀ rest : List (List Char),
      aliasExpand aliases ("ll".data :: rest) =
        "ls".data :: "-l".data :: rest := by
    intro rest
    rw [aliasExpand_splice aliases ("ll".data) ("ls -l".data) rest hl
        (by decide), hp]
    rfl
  exact ⟨hsplice ["-a".data, "/tmp".data], hsplice,
    envExpand_keep env _ (by decide), by decide⟩

/-- C4 amended witness: the one-entry table `ll → ls -l` satisfies the
lookup hypothesis and yields the spliced tokens. -/
theorem c4_alias_amended_witness :
    ([("ll".data, "ls -l".data)].lookup ("ll".data) =
      some ("ls -l".data)) ∧
    aliasExpand [("ll".data, "ls -l".data)]
        ["ll".data, "-a".data, "/tmp".data] =
      ["ls".data, "-l".data, "-a".data, "/tmp".data] :=
  ⟨by decide,
   (c4_alias_amended [("ll".data, "ls -l".data)] [] (by decide)).1⟩

/-- When no job is Stopped the downward search of `cash::bg` leaves
`job_id = 0`. -/
theorem lastStoppedIdAux_eq_zero :
    ∀ (tbl : List Job) (i : Nat),
      (∀ j ∈ tbl, j.status ≠ Status.STOPPED) →
      lastStoppedIdAux tbl i = 0 := by
  intro tbl
  induction tbl with
  | nil => intro i _; rfl
  | cons j rest ih =>
    intro i h
    have hj := h j (List.mem_cons_self j rest)
    have hrest := fun x hx => h x (List.mem_cons_of_mem j hx)
    simp only [lastStoppedIdAux]
    rw [ih (i + 1) hrest]
    simp [hj]

/-- The downward search of `cash::bg` finds the highest-numbered
Stopped job. -/
theorem lastStoppedIdAux_last :
    ∀ (tbl : List Job) (i n : Nat) (jn : Job),
      tbl[n]? = some jn → jn.status = Status.STOPPED →
      (∀ (m : Nat) (jm : Job), n < m → tbl[m]? = some jm →
        jm.status ≠ Status.STOPPED) →
      lastStoppedIdAux tbl i = (i : Int) + (n : Int) + 1 := by
  intro tbl
  induction tbl with
  | nil => intro i n jn hget _ _; simp at hget
  | cons j rest ih =>
    intro i n jn hget hstop hafter
    cases n with
    | zero =>
      have hj : j = jn := by simpa using hget
      have hrest0 : ∀ x ∈ rest, x.status ≠ Status.STOPPED := by
        intro x hx
        obtain ⟨k, hk⟩ := List.mem_iff_getElem?.mp hx
        exact hafter (k + 1) x (Nat.succ_pos k) (by simpa using hk)
      simp only [lastStoppedIdAux]
      rw [lastStoppedIdAux_eq_zero rest (i + 1) hrest0]
      subst hj
      simp [hstop]
    | succ np =>
      have hget' : rest[np]? = some jn := by simpa using hget
      have hafter' : ∀ (m : Nat) (jm : Job), np < m → rest[m]? = some jm →
          jm.status ≠ Status.STOPPED := by
        intro m jm hm hgm
        exact hafter (m + 1) jm (by omega) (by simpa using hgm)
      have hr := ih (i + 1) np jn hget' hstop hafter'
      simp only [lastStoppedIdAux]
      rw [hr]
      rw [if_pos (by push_cast; omega)]
      push_cast
      ring

/-- C10: `bg` with no argument selects the highest-numbered Stopped
job; if no Stopped job exists it prints a diagnostic, returns 1, and
leaves the job table unchanged. -/
theorem c10_bg_no_argument (background_jobs : List Job) (killOk : Bool) :
    ((∀ j ∈ background_jobs, j.status ≠ Status.STOPPED) →
      bgRun background_jobs none killOk =
        { ret := 1, jobs := background_jobs, diag := true })
  ∧ (∀ (n : Nat) (jn : Job), background_jobs[n]? = some jn →
      jn.status = Status.STOPPED →
      (∀ (m : Nat) (jm : Job), n < m → background_jobs[m]? = some jm →
        jm.status ≠ Status.STOPPED) →
      lastStoppedId background_jobs = (n : Int) + 1 ∧
      bgRun background_jobs none killOk =
        bgResume background_jobs ((n : Int) + 1) killOk) := by
  have hred : bgRun background_jobs none killOk =
      if lastStoppedId background_jobs = 0 then
        { ret := 1, jobs := background_jobs, diag := true }
      else bgResume background_jobs (lastStoppedId background_jobs)
        killOk := rfl
  constructor
  · intro h
    have h0 : lastStoppedId background_jobs = 0 :=
      lastStoppedIdAux_eq_zero background_jobs 0 h
    rw [hred, h0]
    simp
  · intro n jn hget hstop hafter
    have hl : lastStoppedId background_jobs = (n : Int) + 1 := by
      have := lastStoppedIdAux_last background_jobs 0 n jn hget hstop hafter
      simpa using this
    refine ⟨hl, ?_⟩
    rw [hred, hl, if_neg (by omega)]

/-- C10 witness: on `[Running]` the no-argument `bg` reports "no current
job" and changes nothing; on `[Running, Stopped]` it selects job 2. -/
theorem c10_bg_no_argument_witness :
    bgRun [{ pid := 1, pgid := 1, cmd := "a ".data,
             status := Status.RUNNING }] none true =
      { ret := 1,
        jobs := [{ pid := 1, pgid := 1, cmd := "a ".data,
                   status := Status.RUNNING }],
        diag := true } ∧
    (lastStoppedId
        [{ pid := 1, pgid := 1, cmd := "a ".data, status := Status.RUNNING },
         { pid := 2, pgid := 2, cmd := "b ".data,
           status := Status.STOPPED }] = ((1 : Nat) : Int) + 1 ∧
      bgRun
        [{ pid := 1, pgid := 1, cmd := "a ".data, status := Status.RUNNING },
         { pid := 2, pgid := 2, cmd := "b ".data,
           status := Status.STOPPED }] none true =
      bgResume
        [{ pid := 1, pgid := 1, cmd := "a ".data, status := Status.RUNNING },
         { pid := 2, pgid := 2, cmd := "b ".data,
           status := Status.STOPPED }] (((1 : Nat) : Int) + 1) true) :=
  ⟨(c10_bg_no_argument
      [{ pid := 1, pgid := 1, cmd := "a ".data,
         status := Status.RUNNING }] true).1 (by decide),
   (c10_bg_no_argument
      [{ pid := 1, pgid := 1, cmd := "a ".data, status := Status.RUNNING },
       { pid := 2, pgid := 2, cmd := "b ".data,
         status := Status.STOPPED }] true).2 1
      { pid := 2, pgid := 2, cmd := "b ".data, status := Status.STOPPED }
      (by decide) (by decide)
      (by
        intro m jm hm hg
        rw [List.getElem?_eq_none (by simp; omega)] at hg
        cases hg)⟩

/-- A status update never changes the table length. -/
theorem setJobStatus_length (tbl : List Job) (i : Nat) (s : Status) :
    (setJobStatus tbl i s).length = tbl.length := by
  unfold setJobStatus
  cases h : tbl[i]? <;> simp

/-- A status update preserves every entry's identity (pid, pgid, cmd). -/
theorem setJobStatus_core (tbl : List Job) (i : Nat) (s : Status) (n : Nat) :
    ((setJobStatus tbl i s)[n]?).map jobCore = (tbl[n]?).map jobCore := by
  unfold setJobStatus
  cases h : tbl[i]? with
  | none => rfl
  | some j =>
    by_cases hn : i = n
    · subst hn
      have hi : i < tbl.length := by
        by_contra hcon
        rw [List.getElem?_eq_none (by omega)] at h
        simp at h
      rw [List.getElem?_set_self (by simpa using hi), h]
      rfl
    · rw [List.getElem?_set_ne hn]

/-- One table operation never shrinks the table. -/
theorem applyOp_length (tbl : List Job) (op : TableOp) :
    tbl.length ≤ (applyOp tbl op).length := by
  cases op with
  | push j => simp [applyOp]
  | setStatus i s => simp [applyOp, setJobStatus_length]

/-- One table operation preserves the identity of every existing entry
at its position. -/
theorem applyOp_core (tbl : List Job) (op : TableOp) (n : Nat)
    (h : n < tbl.length) :
    ((applyOp tbl op)[n]?).map jobCore = (tbl[n]?).map jobCore := by
  cases op with
  | push j =>
    show (((tbl ++ [j])[n]?).map jobCore) = _
    rw [List.getElem?_append, if_pos h]
  | setStatus i s => exact setJobStatus_core tbl i s n

/-- Any sequence of table operations keeps every existing entry at its
position with its identity, and never shrinks the table. -/
theorem applyOps_preserve :
    ∀ (ops : List TableOp) (tbl : List Job) (n : Nat), n < tbl.length →
      tbl.length ≤ (applyOps tbl ops).length ∧
      ((applyOps tbl ops)[n]?).map jobCore = (tbl[n]?).map jobCore := by
  intro ops
  induction ops with
  | nil => intro tbl n h; exact ⟨le_refl _, rfl⟩
  | cons op ops ih =>
    intro tbl n h
    have hstep : applyOps tbl (op :: ops) = applyOps (applyOp tbl op) ops :=
      rfl
    have hlen : tbl.length ≤ (applyOp tbl op).length := applyOp_length tbl op
    have hn' : n < (applyOp tbl op).length := lt_of_lt_of_le h hlen
    obtain ⟨l1, c1⟩ := ih (applyOp tbl op) n hn'
    rw [hstep]
    exact ⟨le_trans hlen l1, by rw [c1, applyOp_core tbl op n h]⟩

/-- A non-Done entry at 0-based position `n` is listed with index
`i + n + 1` when the listing starts at `i`. -/
theorem jobsListingFrom_mem :
    ∀ (tbl : List Job) (i n : Nat) (j : Job),
      tbl[n]? = some j → j.status ≠ Status.DONE →
      (i + n + 1, j) ∈ jobsListingFrom i tbl := by
  intro tbl
  induction tbl with
  | nil => intro i n j hget _; simp at hget
  | cons a rest ih =>
    intro i n j hget hnd
    cases n with
    | zero =>
      have ha : a = j := by simpa using hget
      subst ha
      simp only [jobsListingFrom]
      rw [if_neg hnd]
      exact List.mem_cons_self _ _
    | succ m =>
      have hget' : rest[m]? = some j := by simpa using hget
      have hmem := ih (i + 1) m j hget' hnd
      have heq : i + (m + 1) + 1 = (i + 1) + m + 1 := by omega
      rw [heq]
      simp only [jobsListingFrom]
      by_cases hd : a.status = Status.DONE
      · rw [if_pos hd]; exact hmem
      · rw [if_neg hd]; exact List.mem_cons_of_mem _ hmem

/-- Done jobs never appear in the listing. -/
theorem jobsListingFrom_not_done :
    ∀ (tbl : List Job) (i : Nat) (p : Nat × Job),
      p ∈ jobsListingFrom i tbl → p.2.status ≠ Status.DONE := by
  intro tbl
  induction tbl with
  | nil => intro i p hp; simp [jobsListingFrom] at hp
  | cons a rest ih =>
    intro i p hp
    simp only [jobsListingFrom] at hp
    by_cases hd : a.status = Status.DONE
    · rw [if_pos hd] at hp
      exact ih (i + 1) p hp
    · rw [if_neg hd] at hp
      rcases List.mem_cons.mp hp with h | h
      · subst h; exact hd
      · exact ih (i + 1) p h

/-- C6: for every job table and every sequence of the operations the
source performs on it (appends and status updates), the Nth job ever
created stays at position N with its identity intact (no operation
removes entries), it is reported by the jobs listing with 1-based index
N exactly when it is not Done, and Done jobs are filtered out of the
listing while remaining in the table. -/
theorem c6_stable_numbering (tbl : List Job) (ops : List TableOp)
    (n : Nat) (h : n < tbl.length) :
    tbl.length ≤ (applyOps tbl ops).length
  ∧ ((applyOps tbl ops)[n]?).map jobCore = (tbl[n]?).map jobCore
  ∧ (∀ j : Job, (applyOps tbl ops)[n]? = some j →
      j.status ≠ Status.DONE →
      (n + 1, j) ∈ jobsListing (applyOps tbl ops))
  ∧ (∀ p ∈ jobsListing (applyOps tbl ops), p.2.status ≠ Status.DONE) := by
  obtain ⟨hlen, hcore⟩ := applyOps_preserve ops tbl n h
  refine ⟨hlen, hcore, ?_, ?_⟩
  · intro j hj hnd
    have := jobsListingFrom_mem (applyOps tbl ops) 0 n j hj hnd
    simpa [jobsListing] using this
  · intro p hp
    exact jobsListingFrom_not_done (applyOps tbl ops) 0 p hp

/-- C6 witness: starting from one Running job, pushing a second job and
then marking the second Done keeps job 1 at index 1 with its identity,
lists it as `[1]`, and hides the Done job while it stays in the
table. -/
theorem c6_stable_numbering_witness :
    (0 < ([{ pid := 10, pgid := 10, cmd := "x ".data,
             status := Status.RUNNING }] : List Job).length) ∧
    (([{ pid := 10, pgid := 10, cmd := "x ".data,
         status := Status.RUNNING }] : List Job).length ≤
        (applyOps [{ pid := 10, pgid := 10, cmd := "x ".data,
                     status := Status.RUNNING }]
          [TableOp.push { pid := 20, pgid := 20, cmd := "y ".data,
                          status := Status.RUNNING },
           TableOp.setStatus 1 Status.DONE]).length
  ∧ ((applyOps [{ pid := 10, pgid := 10, cmd := "x ".data,
                  status := Status.RUNNING }]
        [TableOp.push { pid := 20, pgid := 20, cmd := "y ".data,
                        status := Status.RUNNING },
         TableOp.setStatus 1 Status.DONE])[0]?).map jobCore =
      (([{ pid := 10, pgid := 10, cmd := "x ".data,
           status := Status.RUNNING }] : List Job)[0]?).map jobCore
  ∧ (∀ j : Job, (applyOps [{ pid := 10, pgid := 10, cmd := "x ".data,
                             status := Status.RUNNING }]
        [TableOp.push { pid := 20, pgid := 20, cmd := "y ".data,
                        status := Status.RUNNING },
         TableOp.setStatus 1 Status.DONE])[0]? = some j →
      j.status ≠ Status.DONE →
      (0 + 1, j) ∈ jobsListing (applyOps
        [{ pid := 10, pgid := 10, cmd := "x ".data,
           status := Status.RUNNING }]
        [TableOp.push { pid := 20, pgid := 20, cmd := "y ".data,
                        status := Status.RUNNING },
         TableOp.setStatus 1 Status.DONE]))
  ∧ (∀ p ∈ jobsListing (applyOps
        [{ pid := 10, pgid := 10, cmd := "x ".data,
           status := Status.RUNNING }]
        [TableOp.push { pid := 20, pgid := 20, cmd := "y ".data,
                        status := Status.RUNNING },
         TableOp.setStatus 1 Status.DONE]),
      p.2.status ≠ Status.DONE)) :=
  ⟨by decide,
   c6_stable_numbering
     [{ pid := 10, pgid := 10, cmd := "x ".data, status := Status.RUNNING }]
     [TableOp.push { pid := 20, pgid := 20, cmd := "y ".data,
                     status := Status.RUNNING },
      TableOp.setStatus 1 Status.DONE] 0 (by decide)⟩

/-- Inserting into the buffer grows it by exactly the inserted length,
wherever the position falls. -/
theorem insertAt_length (l : List Char) (p : Nat) (s : List Char) :
    (insertAt l p s).length = l.length + s.length := by
  simp [insertAt]
  omega

/-- Tab completion preserves the cursor bounds: the splice inserts the
suffix at the cursor and advances the cursor by exactly its length. -/
theorem tabComplete_inv (aliasNames : List (List Char)) (e : Editor)
    (h : cursorInv e) : cursorInv (tabComplete aliasNames e) := by
  obtain ⟨h0, h1⟩ := h
  simp only [tabComplete]
  split
  · exact ⟨h0, h1⟩
  split
  · exact ⟨h0, h1⟩
  split
  · refine ⟨?_, ?_⟩ <;> dsimp only
    · omega
    · rw [insertAt_length]
      omega
  · exact ⟨h0, h1⟩

/-- C9: for every editor state whose cursor lies within
`[0, current_line.length]` and every key value, `process_keypress`
keeps the cursor inside the buffer bounds: every insertion, deletion,
cursor move, history load and tab completion preserves the
invariant. -/
theorem c9_cursor_bounds (history_commands aliasNames : List (List Char))
    (key : Int) (e : Editor) (h : cursorInv e) :
    keyResultInv (process_keypress history_commands aliasNames key e) := by
  obtain ⟨h0, h1⟩ := h
  unfold process_keypress
  by_cases k1 : key = KEY_ENTER
  · rw [if_pos k1]; exact ⟨h0, h1⟩
  rw [if_neg k1]
  by_cases k2 : key = KEY_CTRL_C
  · rw [if_pos k2]; exact ⟨by simp, by simp⟩
  rw [if_neg k2]
  by_cases k3 : key = KEY_CTRL_D
  · rw [if_pos k3]
    by_cases hl : e.current_line = []
    · rw [if_pos hl]; trivial
    · rw [if_neg hl]; exact ⟨h0, h1⟩
  rw [if_neg k3]
  by_cases k4 : key = KEY_BACKSPACE ∨ key = KEY_CTRL_H
  · rw [if_pos k4]
    by_cases hpos : 0 < e.cursor_position
    · rw [if_pos hpos]
      refine ⟨?_, ?_⟩ <;> dsimp only
      · omega
      · have hlt : (e.cursor_position - 1).toNat < e.current_line.length := by
          omega
        rw [List.length_eraseIdx, if_pos hlt]
        omega
    · rw [if_neg hpos]; exact ⟨h0, h1⟩
  rw [if_neg k4]
  by_cases k5 : key = KEY_DEL
  · rw [if_pos k5]
    by_cases hlt : e.cursor_position < (e.current_line.length : Int)
    · rw [if_pos hlt]
      refine ⟨?_, ?_⟩ <;> dsimp only
      · omega
      · have hlt2 : e.cursor_position.toNat < e.current_line.length := by
          omega
        rw [List.length_eraseIdx, if_pos hlt2]
        omega
    · rw [if_neg hlt]; exact ⟨h0, h1⟩
  rw [if_neg k5]
  by_cases k6 : key = KEY_ARROW_LEFT
  · rw [if_pos k6]
    by_cases hpos : 0 < e.cursor_position
    · rw [if_pos hpos]
      refine ⟨?_, ?_⟩ <;> dsimp only <;> omega
    · rw [if_neg hpos]; exact ⟨h0, h1⟩
  rw [if_neg k6]
  by_cases k7 : key = KEY_ARROW_RIGHT
  · rw [if_pos k7]
    by_cases hlt : e.cursor_position < (e.current_line.length : Int)
    · rw [if_pos hlt]
      refine ⟨?_, ?_⟩ <;> dsimp only <;> omega
    · rw [if_neg hlt]; exact ⟨h0, h1⟩
  rw [if_neg k7]
  by_cases k8 : key = KEY_ARROW_UP
  · rw [if_pos k8]
    by_cases hc : history_commands ≠ [] ∧ 0 < e.history_index
    · rw [if_pos hc]
      refine ⟨?_, ?_⟩ <;> dsimp only <;> omega
    · rw [if_neg hc]; exact ⟨h0, h1⟩
  rw [if_neg k8]
  by_cases k9 : key = KEY_ARROW_DOWN
  · rw [if_pos k9]
    by_cases hc1 : history_commands ≠ [] ∧
        e.history_index < (history_commands.length : Int) - 1
    · rw [if_pos hc1]
      refine ⟨?_, ?_⟩ <;> dsimp only <;> omega
    · rw [if_neg hc1]
      by_cases hc2 : e.history_index = (history_commands.length : Int) - 1
      · rw [if_pos hc2]; exact ⟨by simp, by simp⟩
      · rw [if_neg hc2]; exact ⟨h0, h1⟩
  rw [if_neg k9]
  by_cases k10 : key = KEY_TAB
  · rw [if_pos k10]
    exact tabComplete_inv aliasNames e ⟨h0, h1⟩
  rw [if_neg k10]
  by_cases k11 : key = KEY_HOME
  · rw [if_pos k11]
    refine ⟨?_, ?_⟩ <;> dsimp only <;> omega
  rw [if_neg k11]
  by_cases k12 : key = KEY_END
  · rw [if_pos k12]
    refine ⟨?_, ?_⟩ <;> dsimp only <;> omega
  rw [if_neg k12]
  by_cases k13 : key = KEY_CTRL_L
  · rw [if_pos k13]; exact ⟨h0, h1⟩
  rw [if_neg k13]
  by_cases hpr : 32 ≤ key ∧ key < 127
  · rw [if_pos hpr]
    refine ⟨?_, ?_⟩ <;> dsimp only
    · omega
    · rw [insertAt_length]
      simp only [List.length_singleton]
      omega
  · rw [if_neg hpr]; exact ⟨h0, h1⟩

/-- C9 witness: backspace in the middle of the two-character buffer
`ab` keeps the cursor inside the bounds. -/
theorem c9_cursor_bounds_witness :
    cursorInv { current_line := "ab".data, cursor_position := 1,
                history_index := 0 } ∧
    keyResultInv (process_keypress [] [] 127
      { current_line := "ab".data, cursor_position := 1,
        history_index := 0 }) :=
  ⟨by decide,
   c9_cursor_bounds [] [] 127
     { current_line := "ab".data, cursor_position := 1,
       history_index := 0 } (by decide)⟩

end cash
